import Mathlib

/-
Verification of the MegaEdit field model (types-for-megaedit, src/v1/Fields/Field.d.ts).

The repository ships TypeScript declaration files only: the enumerations and record
shapes below are transcribed from src/v1/Fields/Field.d.ts, while the behaviour of the
operations (ReArrange, Refresh, Save, SaveWithOptions, GetBoundingBox,
ConvertRelativeFieldPositionToGlobalLocation) is declared there but implemented in the
host editor, outside this repository.  Those operation bodies are modelled from the
specification (spec.md sections 4.1 to 4.4, 6, 7 and 9) and are marked accordingly.

Numbers are modelled as rationals; trigonometric evaluation of the rotation angle is
abstracted by a pair of functions `cosd sind : Q -> Q` (degree-based cosine and sine of
the host math library), so every definition stays executable and the geometric claims
are proved for every interpretation of `cosd`/`sind` that satisfies the stated
hypotheses (for instance `cosd 0 = 1`).
-/

namespace MegaEdit

/-- Field type enumeration, transcribed from `FieldType` in src/v1/Fields/Field.d.ts. -/
inductive FieldType where
  | ImageField
  | TextField
  | PathField
  | CustomField
deriving DecidableEq, Repr

/-- Z-order move modes, transcribed from `ReArrangeMode` in src/v1/Fields/Field.d.ts. -/
inductive ReArrangeMode where
  | MoveFront
  | MoveBack
  | MoveToFront
  | MoveToBack
deriving DecidableEq, Repr

/-- Movement restriction modes, transcribed from `FieldMovementMode` in src/v1/Fields/Field.d.ts. -/
inductive FieldMovementMode where
  | Free
  | Fixed
  | Horizontal
  | Vertical
deriving DecidableEq, Repr

/-- Border styles, transcribed from `BorderType` in src/v1/Fields/Field.d.ts. -/
inductive BorderType where
  | None
  | Solid
  | Outline
  | Distance
deriving DecidableEq, Repr

/-- Border settings, transcribed from `FieldBorder` in src/v1/Fields/Field.d.ts. -/
structure FieldBorder where
  applyBackground : Bool
  backgroundColor : String
  backgroundOpacity : ℚ
  borderColor : String
  borderOpacity : ℚ
  borderRadius : ℚ
  borderStrokeWidth : ℚ
  borderStyle : BorderType
  borderWidth : ℚ
deriving DecidableEq, Repr

/-- Shadow settings, transcribed from `FieldShadow` in src/v1/Fields/Field.d.ts. -/
structure FieldShadow where
  shadowBlur : ℚ
  shadowColor : String
  shadowOffsetX : ℚ
  shadowOffsetY : ℚ
  shadowTransparency : ℚ
deriving DecidableEq, Repr

/-- Save options, transcribed from `SaveOptions` in src/v1/Fields/Field.d.ts. -/
structure SaveOptions where
  addUndo : Bool
  handleTextFlow : Bool
deriving DecidableEq, Repr

/-- Issue flags, transcribed from `BaseFieldIssues` in src/v1/Fields/Field.d.ts. -/
structure BaseFieldIssues where
  ignoreIssues : Bool
  hasPositionIssues : Bool
  customIssues : Bool
deriving DecidableEq, Repr

/-- Restriction flags, transcribed from `BaseFieldRestrictions` in src/v1/Fields/Field.d.ts. -/
structure BaseFieldRestrictions where
  doNotOpenPopup : Bool
  doNotPrint : Bool
  showNoPrintInPreview : Bool
  allowRotation : Bool
  allowZOrderArrangement : Bool
  doNotDelete : Bool
  allowSizeChange : Bool
  movementMode : FieldMovementMode
  doNotSelect : Bool
  doNotParticipateOnLayout : Bool
  skipPageZoom : Bool
deriving DecidableEq, Repr

/-- UI options, transcribed from `BaseFieldUiOptions` in src/v1/Fields/Field.d.ts. -/
structure BaseFieldUiOptions where
  hideBorder : Bool
  hideShadow : Bool
  showBackgroundColorOption : Bool
  snapToObject : Bool
  helpText : String
deriving DecidableEq, Repr

/-- Field area, transcribed from the inline `area` record of `BaseField` in
src/v1/Fields/Field.d.ts: position, size and rotation in points/degrees plus the
placement data (`page`, `subPage`, `zIndex`) that is read-only for scripts. -/
structure Area where
  x : ℚ
  y : ℚ
  w : ℚ
  h : ℚ
  rotation : ℚ
  page : ℕ
  subPage : ℕ
  zIndex : ℕ
  hidden : Bool
deriving DecidableEq, Repr

/-- Field meta data, transcribed from the inline `info` record of `BaseField` in
src/v1/Fields/Field.d.ts. -/
structure BaseFieldInfo where
  name : String
  tags : List String
  sequence : ℤ
  customData : String
deriving DecidableEq, Repr

/-- The shared field record, transcribed from `BaseField` in src/v1/Fields/Field.d.ts.
A value of this type is used both for an authoritative field entity and for a
script-held handle (a handle is a detached point-in-time copy, spec.md section 9). -/
structure BaseField where
  id : String
  type : FieldType
  area : Area
  info : BaseFieldInfo
  issues : BaseFieldIssues
  restrictions : BaseFieldRestrictions
  uioptions : BaseFieldUiOptions
  shadow : Option FieldShadow
  border : Option FieldBorder
deriving DecidableEq, Repr

/-- A 2D point on the canvas in points.  The `Point` type is referenced by
src/v1/Fields/Field.d.ts but declared elsewhere in the repository. -/
structure Point where
  x : ℚ
  y : ℚ
deriving DecidableEq, Repr

/-- Modelled from the spec: the `FieldBoundingBox` result type of `GetBoundingBox` is
referenced but not declared under src/; per spec.md section 4.1 it carries the four
corner points after rotation plus the field's natural x, y, w, h. -/
structure FieldBoundingBox where
  x : ℚ
  y : ℚ
  w : ℚ
  h : ℚ
  topLeft : Point
  topRight : Point
  bottomRight : Point
  bottomLeft : Point
deriving DecidableEq, Repr

/-- Modelled from the spec: the canvas addressable area (page bounds excluding the
bleed margin).  Its geometry is supplied by the external document collaborator
(spec.md section 4.4), so it enters the model as an explicit rectangle parameter. -/
structure CanvasRect where
  left : ℚ
  top : ℚ
  right : ℚ
  bottom : ℚ
deriving DecidableEq, Repr

/-- Modelled from the spec: the error kinds of spec.md section 7.  The error values
themselves are produced by the host implementation, which is not under src/. -/
inductive FieldError where
  | NotFound
  | RestrictionViolation
  | InvalidArgument
deriving DecidableEq, Repr

/-- Modelled from the spec: rotation of point `p` around center `c` by `deg` degrees
clockwise in standard screen coordinates (spec.md section 4.1).  `cosd`/`sind` are the
host's degree-based cosine and sine. -/
def rotatePoint (cosd sind : ℚ → ℚ) (deg : ℚ) (c p : Point) : Point :=
  { x := c.x + cosd deg * (p.x - c.x) - sind deg * (p.y - c.y)
    y := c.y + sind deg * (p.x - c.x) + cosd deg * (p.y - c.y) }

/-- Modelled from the spec: `computeBoundingBox` / `BaseField.GetBoundingBox`
(spec.md section 4.1) whose implementation is not under src/ — the four corners of the
unrotated rectangle `(x, y, w, h)` rotated about `(x, y)` by `rotation` degrees, plus
the natural area values.  Pure and total by construction. -/
def GetBoundingBox (cosd sind : ℚ → ℚ) (a : Area) : FieldBoundingBox :=
  let c : Point := { x := a.x, y := a.y }
  { x := a.x, y := a.y, w := a.w, h := a.h
    topLeft := rotatePoint cosd sind a.rotation c c
    topRight := rotatePoint cosd sind a.rotation c { x := a.x + a.w, y := a.y }
    bottomRight := rotatePoint cosd sind a.rotation c { x := a.x + a.w, y := a.y + a.h }
    bottomLeft := rotatePoint cosd sind a.rotation c { x := a.x, y := a.y + a.h } }

/-- Modelled from the spec: `relativeToGlobal` / the declared
`BaseField.ConvertRelativeFieldPositionToGlobalLocation` (spec.md section 4.1), whose
implementation is not under src/ — translate the field-local, pre-rotation point by
`(x, y)` and then rotate about `(x, y)` by `rotation` degrees. -/
def ConvertRelativeFieldPositionToGlobalLocation (cosd sind : ℚ → ℚ) (a : Area)
    (p : Point) : Point :=
  rotatePoint cosd sind a.rotation { x := a.x, y := a.y }
    { x := a.x + p.x, y := a.y + p.y }

/-- Twice the signed (shoelace) area of the quadrilateral with the given corners,
used to express that a degenerate bounding box has zero area. -/
def quadDoubleArea (p0 p1 p2 p3 : Point) : ℚ :=
  p0.x * p1.y - p1.x * p0.y + p1.x * p2.y - p2.x * p1.y +
    p2.x * p3.y - p3.x * p2.y + p3.x * p0.y - p0.x * p3.y

/-- A point lies within the canvas addressable area. -/
def InBounds (r : CanvasRect) (p : Point) : Prop :=
  r.left ≤ p.x ∧ p.x ≤ r.right ∧ r.top ≤ p.y ∧ p.y ≤ r.bottom

instance (r : CanvasRect) (p : Point) : Decidable (InBounds r p) := by
  unfold InBounds; infer_instance

/-- Modelled from the spec: the bounding box of an area lies fully inside the canvas
addressable area — all four rotated corners are within the page bounds excluding bleed
(spec.md section 4.4). -/
def bboxInside (cosd sind : ℚ → ℚ) (r : CanvasRect) (a : Area) : Bool :=
  let b := GetBoundingBox cosd sind a
  decide (InBounds r b.topLeft) && decide (InBounds r b.topRight) &&
    decide (InBounds r b.bottomRight) && decide (InBounds r b.bottomLeft)

/-- Authoritative editor document state: the stored field entities.  The host
document service holding it is outside src/ (spec.md section 6); it is modelled as the
list of authoritative `BaseField` records. -/
def Doc : Type := List BaseField

/-- Modelled from the spec: the host document service call `getField(id)` (spec.md
section 6), not under src/ — the authoritative record for an id, if the entity still
exists. -/
def getField (doc : List BaseField) (fid : String) : Option BaseField :=
  doc.find? (fun f => f.id == fid)

/-- Modelled from the spec: eager tag validation for Save — a tag string must not
contain the delimiter character (src/v1/Fields/Field.d.ts line 341, spec.md
sections 3 and 7). -/
def validTags (fld : BaseField) : Bool :=
  fld.info.tags.all (fun t => !(t.toList.contains '|'))

/-- Modelled from the spec: eager range validation for Save — opacities lie in [0,1]
and the shadow blur in [0,10] (spec.md sections 3 and 7). -/
def validStyle (fld : BaseField) : Bool :=
  (match fld.border with
   | none => true
   | some b =>
     decide (0 ≤ b.backgroundOpacity ∧ b.backgroundOpacity ≤ 1) &&
       decide (0 ≤ b.borderOpacity ∧ b.borderOpacity ≤ 1)) &&
  (match fld.shadow with
   | none => true
   | some s =>
     decide (0 ≤ s.shadowTransparency ∧ s.shadowTransparency ≤ 1) &&
       decide (0 ≤ s.shadowBlur ∧ s.shadowBlur ≤ 10))

/-- Modelled from the spec: the area persisted by Save — the handle's x, y, w, h,
rotation and hidden values, while `page`, `subPage` and `zIndex` keep their
authoritative values (spec.md section 4.2: they are excluded from Save). -/
def savedArea (auth handle : BaseField) : Area :=
  { x := handle.area.x, y := handle.area.y, w := handle.area.w, h := handle.area.h
    rotation := handle.area.rotation, hidden := handle.area.hidden
    page := auth.area.page, subPage := auth.area.subPage, zIndex := auth.area.zIndex }

/-- Modelled from the spec: the patch a successful Save applies to the authoritative
record — the allow-listed mutable attributes are taken from the handle (area except
page/subPage/zIndex, info, issues.ignoreIssues and issues.customIssues, restrictions,
uioptions, border, shadow), `hasPositionIssues` is recomputed from the new area
(spec.md sections 4.2, 4.4 and 9). -/
def applySave (cosd sind : ℚ → ℚ) (r : CanvasRect) (auth handle : BaseField) :
    BaseField :=
  { id := auth.id, type := auth.type
    area := savedArea auth handle
    info := handle.info
    issues := { ignoreIssues := handle.issues.ignoreIssues
                hasPositionIssues := !(bboxInside cosd sind r (savedArea auth handle))
                customIssues := handle.issues.customIssues }
    restrictions := handle.restrictions
    uioptions := handle.uioptions
    shadow := handle.shadow
    border := handle.border }

/-- Modelled from the spec: the per-record update of a successful Save: the record
with the handle's id receives the allow-listed patch, every other record is kept. -/
def saveUpd (cosd sind : ℚ → ℚ) (r : CanvasRect) (handle : BaseField)
    (f : BaseField) : BaseField :=
  if f.id == handle.id then applySave cosd sind r f handle else f

/-- Modelled from the spec: `BaseField.Save` (declared at src/v1/Fields/Field.d.ts
lines 387-396, implemented in the host editor outside src/) — validate existence
against current authoritative state, then validate arguments eagerly, then push the
allow-listed attributes; the whole call aborts before any mutation on failure
(spec.md sections 4.2 and 7).  Returns the new authoritative state and the error. -/
def Save (cosd sind : ℚ → ℚ) (r : CanvasRect) (doc : List BaseField)
    (handle : BaseField) : List BaseField × Option FieldError :=
  match getField doc handle.id with
  | none => (doc, some .NotFound)
  | some _ =>
    if !(validTags handle) || !(validStyle handle) then (doc, some .InvalidArgument)
    else (doc.map (saveUpd cosd sind r handle), none)

/-- Modelled from the spec: `BaseField.SaveWithOptions` (declared at
src/v1/Fields/Field.d.ts lines 397-401) — the options only control the host-side undo
checkpoint and synchronous text reflow (spec.md section 4.2), which are external
effects; the state transition and error behaviour are those of `Save`. -/
def SaveWithOptions (cosd sind : ℚ → ℚ) (r : CanvasRect) (opts : SaveOptions)
    (doc : List BaseField) (handle : BaseField) : List BaseField × Option FieldError :=
  match opts with
  | _ => Save cosd sind r doc handle

/-- Modelled from the spec: `BaseField.Refresh` (declared at src/v1/Fields/Field.d.ts
lines 382-386, implemented in the host editor) — replace the handle's snapshot with
the current authoritative state for its id; `NotFound` if the entity was deleted
(spec.md section 4.2).  Authoritative state is read, never written. -/
def Refresh (doc : List BaseField) (handle : BaseField) :
    BaseField × Option FieldError :=
  match getField doc handle.id with
  | none => (handle, some .NotFound)
  | some f => (f, none)

/-- Modelled from the spec: one step of `MoveFront` on the ordered id stack — swap the
field with its immediate next-higher neighbour, a no-op when it is already top-most or
absent (spec.md section 4.3). -/
def moveFrontStep {α : Type} [DecidableEq α] (fid : α) : List α → List α
  | [] => []
  | a :: t =>
    if a = fid then
      match t with
      | [] => a :: t
      | b :: t' => b :: a :: t'
    else a :: moveFrontStep fid t

/-- Modelled from the spec: one step of `MoveBack` on the ordered id stack — swap the
field with its immediate next-lower neighbour, a no-op when it is already bottom-most
or absent (spec.md section 4.3). -/
def moveBackStep {α : Type} [DecidableEq α] (fid : α) : List α → List α
  | [] => []
  | [a] => [a]
  | a :: b :: t =>
    if b = fid then b :: a :: t else a :: moveBackStep fid (b :: t)

/-- Modelled from the spec: the Z-Order Manager's four operations on one ordered
stack of field ids, index 0 being bottom-most (spec.md section 4.3).  `MoveToFront`
and `MoveToBack` relocate the id to the end or the start of the stack. -/
def zReArrange {α : Type} [DecidableEq α] (mode : ReArrangeMode) (fid : α)
    (s : List α) : List α :=
  match mode with
  | .MoveFront => moveFrontStep fid s
  | .MoveBack => moveBackStep fid s
  | .MoveToFront => if fid ∈ s then s.erase fid ++ [fid] else s
  | .MoveToBack => if fid ∈ s then fid :: s.erase fid else s

/-- A field belongs to the given (page, subPage) pair. -/
def onPage (p sp : ℕ) (f : BaseField) : Bool :=
  f.area.page == p && f.area.subPage == sp

/-- The authoritative fields placed on one (page, subPage) pair. -/
def pageFields (doc : List BaseField) (p sp : ℕ) : List BaseField :=
  doc.filter (onPage p sp)

/-- Modelled from the spec: the host document service call
`getZOrderStack(page, subPage)` (spec.md section 6) — the ids of the page's fields
ordered by ascending zIndex, reconstructed here from the per-field zIndex values,
which are contiguous 0..n-1 for a well-formed document (spec.md section 4.3). -/
def stackOf (doc : List BaseField) (p sp : ℕ) : List String :=
  (List.range (pageFields doc p sp).length).filterMap
    (fun k => ((pageFields doc p sp).find? (fun f => f.area.zIndex == k)).map (·.id))

/-- Modelled from the spec: the host document service call
`setZOrderStack(page, subPage, orderedIds)` (spec.md section 6) — write a reordered
stack back by renumbering every field of the page with its position in the stack,
keeping the zIndex sequence contiguous (spec.md section 4.3). -/
def renumberPage (p sp : ℕ) (s : List String) (doc : List BaseField) :
    List BaseField :=
  doc.map (fun g =>
    if onPage p sp g then { g with area := { g.area with zIndex := s.indexOf g.id } }
    else g)

/-- Modelled from the spec: `BaseField.ReArrange` (declared at
src/v1/Fields/Field.d.ts lines 376-381, implemented in the host editor) — validate
existence and the `allowZOrderArrangement` restriction against current authoritative
state, then delegate to the Z-Order Manager on the field's (page, subPage) stack and
renumber that page (spec.md sections 4.2 to 4.4 and 7). -/
def ReArrange (mode : ReArrangeMode) (doc : List BaseField) (fid : String) :
    List BaseField × Option FieldError :=
  match getField doc fid with
  | none => (doc, some .NotFound)
  | some f =>
    if f.restrictions.allowZOrderArrangement then
      (renumberPage f.area.page f.area.subPage
        (zReArrange mode fid (stackOf doc f.area.page f.area.subPage)) doc, none)
    else (doc, some .RestrictionViolation)

/-- Concrete restriction record with z-order arrangement allowed, used by witnesses. -/
def demoRestrictions : BaseFieldRestrictions :=
  { doNotOpenPopup := false, doNotPrint := false, showNoPrintInPreview := false
    allowRotation := true, allowZOrderArrangement := true, doNotDelete := false
    allowSizeChange := true, movementMode := .Free, doNotSelect := false
    doNotParticipateOnLayout := false, skipPageZoom := false }

/-- Concrete field record used by witnesses: a text field on page 0, sub page 0. -/
def demoField (fid : String) (z : ℕ) : BaseField :=
  { id := fid, type := .TextField
    area := { x := 0, y := 0, w := 10, h := 10, rotation := 0
              page := 0, subPage := 0, zIndex := z, hidden := false }
    info := { name := "", tags := [], sequence := 0, customData := "" }
    issues := { ignoreIssues := false, hasPositionIssues := false, customIssues := false }
    restrictions := demoRestrictions
    uioptions := { hideBorder := false, hideShadow := false
                   showBackgroundColorOption := false, snapToObject := false
                   helpText := "" }
    shadow := none, border := none }

/-- Concrete three-field document with zIndex values 0, 1, 2, used by witnesses. -/
def demoDoc : List BaseField := [demoField "a" 0, demoField "b" 1, demoField "c" 2]

theorem moveFrontStep_perm {α : Type} [DecidableEq α] (fid : α) :
    ∀ l : List α, (moveFrontStep fid l).Perm l
  | [] => .refl []
  | a :: t => by
    by_cases ha : a = fid
    · cases t with
      | nil => simp [moveFrontStep, ha]
      | cons b t' =>
        simp only [moveFrontStep, ha, if_true]
        exact List.Perm.swap fid b t'
    · simp only [moveFrontStep, ha, if_false]
      exact (moveFrontStep_perm fid t).cons a

theorem moveBackStep_perm {α : Type} [DecidableEq α] (fid : α) :
    ∀ l : List α, (moveBackStep fid l).Perm l
  | [] => .refl []
  | [a] => .refl [a]
  | a :: b :: t => by
    by_cases hb : b = fid
    · simp only [moveBackStep, hb, if_true]
      exact List.Perm.swap a fid t
    · simp only [moveBackStep, hb, if_false]
      exact (moveBackStep_perm fid (b :: t)).cons a

theorem moveFrontStep_of_not_mem {α : Type} [DecidableEq α] {fid : α} :
    ∀ {l : List α}, fid ∉ l → moveFrontStep fid l = l
  | [], _ => rfl
  | a :: t, h => by
    have ha : ¬a = fid := fun e => h (e ▸ List.mem_cons_self a t)
    simp only [moveFrontStep, ha, if_false]
    rw [moveFrontStep_of_not_mem (fun hm => h (List.mem_cons_of_mem a hm))]

theorem moveBackStep_of_not_mem {α : Type} [DecidableEq α] {fid : α} :
    ∀ {l : List α}, fid ∉ l → moveBackStep fid l = l
  | [], _ => rfl
  | [a], _ => rfl
  | a :: b :: t, h => by
    have hb : ¬b = fid := fun e => h (e ▸ List.mem_cons_of_mem a (List.mem_cons_self b t))
    simp only [moveBackStep, hb, if_false]
    rw [moveBackStep_of_not_mem (fun hm => h (List.mem_cons_of_mem a hm))]

theorem moveFrontStep_swap {α : Type} [DecidableEq α] (a b : α) :
    ∀ (l₁ : List α), a ∉ l₁ → ∀ l₂ : List α,
      moveFrontStep a (l₁ ++ a :: b :: l₂) = l₁ ++ b :: a :: l₂
  | [], _, l₂ => by simp [moveFrontStep]
  | c :: l₁, h, l₂ => by
    have hc : ¬c = a := fun e => h (e ▸ List.mem_cons_self c l₁)
    simp only [List.cons_append, moveFrontStep, hc, if_false, List.append_eq]
    rw [moveFrontStep_swap a b l₁ (fun hm => h (List.mem_cons_of_mem c hm)) l₂]

theorem moveBackStep_swap {α : Type} [DecidableEq α] (a b : α) (hba : b ≠ a) :
    ∀ (l₁ : List α), b ∉ l₁ → ∀ l₂ : List α,
      moveBackStep b (l₁ ++ a :: b :: l₂) = l₁ ++ b :: a :: l₂
  | [], _, l₂ => by simp [moveBackStep]
  | c :: l₁, h, l₂ => by
    have hb₁ : b ∉ l₁ := fun hm => h (List.mem_cons_of_mem c hm)
    cases l₁ with
    | nil =>
      have hab : ¬a = b := fun e => hba e.symm
      simp [moveBackStep, hab]
    | cons d l₁' =>
      have hd : ¬d = b := fun e => hb₁ (e ▸ List.mem_cons_self d l₁')
      simp only [List.cons_append, moveBackStep, hd, if_false, List.append_eq]
      have := moveBackStep_swap a b hba (d :: l₁') hb₁ l₂
      simp only [List.cons_append] at this
      rw [this]

theorem moveFrontStep_top {α : Type} [DecidableEq α] (a : α) :
    ∀ (l : List α), a ∉ l → moveFrontStep a (l ++ [a]) = l ++ [a]
  | [], _ => by simp [moveFrontStep]
  | c :: l, h => by
    have hc : ¬c = a := fun e => h (e ▸ List.mem_cons_self c l)
    simp only [List.cons_append, moveFrontStep, hc, if_false, List.append_eq]
    rw [moveFrontStep_top a l (fun hm => h (List.mem_cons_of_mem c hm))]

theorem moveBackStep_bottom {α : Type} [DecidableEq α] (a : α) (t : List α)
    (h : a ∉ t) : moveBackStep a (a :: t) = a :: t := by
  cases t with
  | nil => rfl
  | cons b t' =>
    have hb : ¬b = a := fun e => h (e ▸ List.mem_cons_self b t')
    simp only [moveBackStep, hb, if_false]
    rw [moveBackStep_of_not_mem h]

theorem zReArrange_perm {α : Type} [DecidableEq α] (mode : ReArrangeMode) (fid : α)
    (s : List α) : (zReArrange mode fid s).Perm s := by
  cases mode with
  | MoveFront => exact moveFrontStep_perm fid s
  | MoveBack => exact moveBackStep_perm fid s
  | MoveToFront =>
    by_cases h : fid ∈ s
    · simp only [zReArrange, h, if_true]
      exact (List.perm_append_singleton fid (s.erase fid)).trans
        (List.perm_cons_erase h).symm
    · simp [zReArrange, h]
  | MoveToBack =>
    by_cases h : fid ∈ s
    · simp only [zReArrange, h, if_true]
      exact (List.perm_cons_erase h).symm
    · simp [zReArrange, h]

theorem map_indexOf_self {α : Type} [DecidableEq α] :
    ∀ s : List α, s.Nodup → s.map (fun a => s.indexOf a) = List.range s.length
  | [], _ => rfl
  | a :: t, h => by
    have ha : a ∉ t := (List.nodup_cons.mp h).1
    have ht : t.Nodup := (List.nodup_cons.mp h).2
    have step : t.map (fun x => (a :: t).indexOf x) = t.map (fun x => t.indexOf x + 1) := by
      apply List.map_congr_left
      intro x hx
      have hxa : a ≠ x := fun e => ha (e ▸ hx)
      rw [List.indexOf_cons_ne t hxa]
    calc (a :: t).map (fun x => (a :: t).indexOf x)
        = (a :: t).indexOf a :: t.map (fun x => (a :: t).indexOf x) := by
          simp only [List.map_cons]
      _ = 0 :: t.map (fun x => t.indexOf x + 1) := by
          rw [List.indexOf_cons_self, step]
      _ = 0 :: (t.map (fun x => t.indexOf x)).map (fun n => n + 1) := by
          rw [List.map_map]; rfl
      _ = 0 :: (List.range t.length).map (fun n => n + 1) := by
          rw [map_indexOf_self t ht]
      _ = List.range (t.length + 1) := by
          rw [List.range_succ_eq_map]

theorem getField_some_id {doc : List BaseField} {fid : String} {f : BaseField}
    (hf : getField doc fid = some f) : f.id = fid := by
  have := List.find?_some hf
  simpa using this

theorem getField_map_of_id (u : BaseField → BaseField) (hu : ∀ f, (u f).id = f.id)
    (doc : List BaseField) (fid : String) :
    getField (doc.map u) fid = (getField doc fid).map u := by
  induction doc with
  | nil => rfl
  | cons f t ih =>
    unfold getField at ih ⊢
    by_cases hfi : f.id = fid
    · rw [List.map_cons, List.find?_cons_of_pos, List.find?_cons_of_pos] <;>
        simp [hu, hfi]
    · rw [List.map_cons, List.find?_cons_of_neg, List.find?_cons_of_neg]
      · exact ih
      · simp [hfi]
      · simp [hu, hfi]

theorem saveUpd_id (cosd sind : ℚ → ℚ) (r : CanvasRect) (handle f : BaseField) :
    (saveUpd cosd sind r handle f).id = f.id := by
  unfold saveUpd
  by_cases hf : f.id == handle.id <;> simp [hf, applySave]

theorem saveUpd_type (cosd sind : ℚ → ℚ) (r : CanvasRect) (handle f : BaseField) :
    (saveUpd cosd sind r handle f).type = f.type := by
  unfold saveUpd
  by_cases hf : f.id == handle.id <;> simp [hf, applySave]

theorem Save_found (cosd sind : ℚ → ℚ) (r : CanvasRect) {doc : List BaseField}
    {handle auth : BaseField} (hfind : getField doc handle.id = some auth)
    (ht : validTags handle = true) (hs : validStyle handle = true) :
    Save cosd sind r doc handle = (doc.map (saveUpd cosd sind r handle), none) ∧
      getField (doc.map (saveUpd cosd sind r handle)) handle.id =
        some (applySave cosd sind r auth handle) := by
  constructor
  · unfold Save
    rw [hfind]
    simp [ht, hs]
  · rw [getField_map_of_id _ (saveUpd_id cosd sind r handle), hfind]
    have hid : auth.id = handle.id := getField_some_id hfind
    simp [saveUpd, hid, applySave]

theorem onPage_renumber_upd (p sp : ℕ) (s : List String) (g : BaseField) :
    onPage p sp (if onPage p sp g then
      { g with area := { g.area with zIndex := s.indexOf g.id } } else g) =
      onPage p sp g := by
  by_cases hg : onPage p sp g = true
  · rw [if_pos hg]
    rfl
  · rw [if_neg hg]

theorem filter_map_comm {α : Type} (u : α → α) (q : α → Bool)
    (hq : ∀ a, q (u a) = q a) : ∀ l : List α, (l.map u).filter q = (l.filter q).map u
  | [] => rfl
  | a :: t => by
    simp only [List.map_cons, List.filter_cons, hq a]
    by_cases ha : q a = true
    · simp [ha, filter_map_comm u q hq t]
    · simp [ha, filter_map_comm u q hq t]

theorem pageFields_renumber (p sp : ℕ) (s : List String) (doc : List BaseField) :
    (pageFields (renumberPage p sp s doc) p sp).map (fun g => g.area.zIndex) =
      ((pageFields doc p sp).map (fun g => g.id)).map (fun i => s.indexOf i) := by
  unfold pageFields renumberPage
  rw [filter_map_comm _ _ (onPage_renumber_upd p sp s)]
  rw [List.map_map, List.map_map]
  apply List.map_congr_left
  intro g hg
  have hpg : onPage p sp g = true := List.of_mem_filter hg
  simp [Function.comp, hpg]

theorem renumber_zIndex_perm (p sp : ℕ) (s : List String) (doc : List BaseField)
    (hperm : s.Perm ((pageFields doc p sp).map (fun g => g.id)))
    (hnodup : s.Nodup) :
    ((pageFields (renumberPage p sp s doc) p sp).map (fun g => g.area.zIndex)).Perm
      (List.range (pageFields doc p sp).length) := by
  rw [pageFields_renumber]
  have h1 : (((pageFields doc p sp).map (fun g => g.id)).map (fun i => s.indexOf i)).Perm
      (s.map (fun i => s.indexOf i)) := (hperm.symm).map _
  have h2 : s.map (fun i => s.indexOf i) = List.range s.length :=
    map_indexOf_self s hnodup
  have h3 : s.length = (pageFields doc p sp).length := by
    rw [hperm.length_eq, List.length_map]
  rw [h2, h3] at h1
  exact h1

theorem renumberPage_id_type (p sp : ℕ) (s : List String) (doc : List BaseField) :
    (renumberPage p sp s doc).map (fun f => (f.id, f.type)) =
      doc.map (fun f => (f.id, f.type)) := by
  unfold renumberPage
  rw [List.map_map]
  apply List.map_congr_left
  intro g _
  by_cases hg : onPage p sp g <;> simp [hg, Function.comp]

/-- Concrete area used by geometry witnesses: unrotated 10 x 5 rectangle at (3, 4). -/
def demoArea : Area :=
  { x := 3, y := 4, w := 10, h := 5, rotation := 0
    page := 0, subPage := 0, zIndex := 0, hidden := false }

/-- C6: for rotation 0 the bounding box corners are the axis-aligned rectangle
corners of `(x, y, w, h)`; in general each corner is the corresponding unrotated
corner rotated about `(x, y)` by the area's rotation (clockwise, screen coordinates)
and the natural `(x, y, w, h)` is returned unchanged — `GetBoundingBox` is a pure
total function of the area, so determinism and absence of side effects hold by
construction; and `w = 0` or `h = 0` yields a degenerate box of zero area rather
than an error. -/
theorem C6_get_bounding_box (cosd sind : ℚ → ℚ) (hc : cosd 0 = 1) (hs : sind 0 = 0)
    (a : Area) :
    (a.rotation = 0 →
      (GetBoundingBox cosd sind a).topLeft = { x := a.x, y := a.y } ∧
      (GetBoundingBox cosd sind a).topRight = { x := a.x + a.w, y := a.y } ∧
      (GetBoundingBox cosd sind a).bottomLeft = { x := a.x, y := a.y + a.h } ∧
      (GetBoundingBox cosd sind a).bottomRight = { x := a.x + a.w, y := a.y + a.h }) ∧
    ((GetBoundingBox cosd sind a).topLeft =
        rotatePoint cosd sind a.rotation { x := a.x, y := a.y } { x := a.x, y := a.y } ∧
      (GetBoundingBox cosd sind a).topRight =
        rotatePoint cosd sind a.rotation { x := a.x, y := a.y }
          { x := a.x + a.w, y := a.y } ∧
      (GetBoundingBox cosd sind a).bottomLeft =
        rotatePoint cosd sind a.rotation { x := a.x, y := a.y }
          { x := a.x, y := a.y + a.h } ∧
      (GetBoundingBox cosd sind a).bottomRight =
        rotatePoint cosd sind a.rotation { x := a.x, y := a.y }
          { x := a.x + a.w, y := a.y + a.h }) ∧
    ((GetBoundingBox cosd sind a).x = a.x ∧ (GetBoundingBox cosd sind a).y = a.y ∧
      (GetBoundingBox cosd sind a).w = a.w ∧ (GetBoundingBox cosd sind a).h = a.h) ∧
    (a.w = 0 ∨ a.h = 0 →
      quadDoubleArea (GetBoundingBox cosd sind a).topLeft
        (GetBoundingBox cosd sind a).topRight
        (GetBoundingBox cosd sind a).bottomRight
        (GetBoundingBox cosd sind a).bottomLeft = 0) := by
  refine ⟨?_, ⟨rfl, rfl, rfl, rfl⟩, ⟨rfl, rfl, rfl, rfl⟩, ?_⟩
  · intro hrot
    refine ⟨?_, ?_, ?_, ?_⟩ <;>
      · simp only [GetBoundingBox, rotatePoint, hrot, hc, hs, Point.mk.injEq]
        constructor <;> ring
  · intro hdeg
    rcases hdeg with hw | hh
    · simp only [GetBoundingBox, rotatePoint, quadDoubleArea]
      rw [hw]
      ring
    · simp only [GetBoundingBox, rotatePoint, quadDoubleArea]
      rw [hh]
      ring

/-- C6 witness: the theorem applied at the constant interpretation `cosd = 1`,
`sind = 0` and the concrete unrotated area `demoArea`. -/
theorem C6_get_bounding_box_witness :
    (fun _ : ℚ => (1 : ℚ)) 0 = 1 ∧ (fun _ : ℚ => (0 : ℚ)) 0 = 0 ∧
      demoArea.rotation = 0 ∧
      (GetBoundingBox (fun _ => (1 : ℚ)) (fun _ => (0 : ℚ)) demoArea).topLeft =
        { x := 3, y := 4 } ∧
      (GetBoundingBox (fun _ => (1 : ℚ)) (fun _ => (0 : ℚ)) demoArea).bottomRight =
        { x := 13, y := 9 } := by
  refine ⟨rfl, rfl, rfl, ?_, ?_⟩
  · have h := ((C6_get_bounding_box (fun _ => (1 : ℚ)) (fun _ => (0 : ℚ)) rfl rfl
      demoArea).1 rfl).1
    rw [h]
    norm_num [demoArea, Point.mk.injEq]
  · have h := ((C6_get_bounding_box (fun _ => (1 : ℚ)) (fun _ => (0 : ℚ)) rfl rfl
      demoArea).1 rfl).2.2.2
    rw [h]
    norm_num [demoArea, Point.mk.injEq]

/-- C7: `ConvertRelativeFieldPositionToGlobalLocation` maps a field-local,
pre-rotation point by translating by `(x, y)` and then rotating about `(x, y)` by the
area's rotation; applied to `(0, 0)` it yields the designated top-left corner of the
bounding box returned by `GetBoundingBox` on the same area. -/
theorem C7_relative_to_global (cosd sind : ℚ → ℚ) (a : Area) (p : Point) :
    ConvertRelativeFieldPositionToGlobalLocation cosd sind a p =
        rotatePoint cosd sind a.rotation { x := a.x, y := a.y }
          { x := a.x + p.x, y := a.y + p.y } ∧
      ConvertRelativeFieldPositionToGlobalLocation cosd sind a { x := 0, y := 0 } =
        (GetBoundingBox cosd sind a).topLeft := by
  constructor
  · rfl
  · simp only [ConvertRelativeFieldPositionToGlobalLocation, GetBoundingBox,
      rotatePoint, Point.mk.injEq]
    constructor <;> ring

/-- Concrete canvas addressable area used by witnesses. -/
def demoRect : CanvasRect := { left := 0, top := 0, right := 100, bottom := 100 }

/-- Concrete handle for witnesses: a locally mutated copy of field "a" whose local
page, subPage and zIndex differ from the authoritative values. -/
def demoHandle : BaseField :=
  { demoField "a" 0 with
    area := { x := 7, y := 8, w := 20, h := 30, rotation := 0
              page := 5, subPage := 1, zIndex := 9, hidden := true }
    info := { name := "renamed", tags := ["tag"], sequence := 3, customData := "d" } }

/-- C1: for every handle and every authoritative state in which the field exists, a
valid `Save` (and `SaveWithOptions`, which performs the same state transition) leaves
the authoritative field's `page`, `subPage` and `zIndex` unchanged even when the
handle's local copies differ, while persisting every other eligible mutable attribute
(area except those three, info, issues.ignoreIssues and issues.customIssues,
restrictions, uioptions, border, shadow). -/
theorem C1_save_excluded_properties (cosd sind : ℚ → ℚ) (r : CanvasRect)
    (opts : SaveOptions) (doc : List BaseField) (handle auth : BaseField)
    (hfind : getField doc handle.id = some auth)
    (ht : validTags handle = true) (hsty : validStyle handle = true) :
    SaveWithOptions cosd sind r opts doc handle = Save cosd sind r doc handle ∧
    (Save cosd sind r doc handle).2 = none ∧
    ∃ fld', getField (Save cosd sind r doc handle).1 handle.id = some fld' ∧
      fld'.area.page = auth.area.page ∧
      fld'.area.subPage = auth.area.subPage ∧
      fld'.area.zIndex = auth.area.zIndex ∧
      fld'.area.x = handle.area.x ∧ fld'.area.y = handle.area.y ∧
      fld'.area.w = handle.area.w ∧ fld'.area.h = handle.area.h ∧
      fld'.area.rotation = handle.area.rotation ∧
      fld'.area.hidden = handle.area.hidden ∧
      fld'.info = handle.info ∧
      fld'.issues.ignoreIssues = handle.issues.ignoreIssues ∧
      fld'.issues.customIssues = handle.issues.customIssues ∧
      fld'.restrictions = handle.restrictions ∧
      fld'.uioptions = handle.uioptions ∧
      fld'.border = handle.border ∧ fld'.shadow = handle.shadow := by
  obtain ⟨hsave, hget⟩ := Save_found cosd sind r hfind ht hsty
  refine ⟨rfl, by rw [hsave], ?_⟩
  refine ⟨applySave cosd sind r auth handle, ?_, ?_⟩
  · rw [hsave]
    exact hget
  · exact ⟨rfl, rfl, rfl, rfl, rfl, rfl, rfl, rfl, rfl, rfl, rfl, rfl, rfl, rfl, rfl,
      rfl⟩

/-- C1 witness: saving `demoHandle` (whose local page/subPage/zIndex are 5/1/9) into
`demoDoc` keeps the authoritative placement 0/0/0 and persists the moved x. -/
theorem C1_save_excluded_properties_witness :
    getField demoDoc demoHandle.id = some (demoField "a" 0) ∧
    validTags demoHandle = true ∧ validStyle demoHandle = true ∧
    ∃ fld',
      getField (Save (fun _ => 1) (fun _ => 0) demoRect demoDoc demoHandle).1
        demoHandle.id = some fld' ∧
      fld'.area.page = 0 ∧ fld'.area.subPage = 0 ∧ fld'.area.zIndex = 0 ∧
      fld'.area.x = 7 ∧ fld'.info.name = "renamed" := by
  refine ⟨by decide, by decide, by decide, ?_⟩
  obtain ⟨-, -, fld', hget, hpage, hsub, hz, hx, -, -, -, -, -, hinfo, -⟩ :=
    C1_save_excluded_properties (fun _ => 1) (fun _ => 0) demoRect
      { addUndo := true, handleTextFlow := true } demoDoc demoHandle
      (demoField "a" 0) (by decide) (by decide) (by decide)
  exact ⟨fld', hget, hpage, hsub, hz, hx, by rw [hinfo]; rfl⟩

/-- Concrete handle for witnesses whose underlying field is absent from `demoDoc`. -/
def demoGhost : BaseField := demoField "zz" 0

/-- C2: for every handle whose underlying entity was deleted from authoritative state,
`Refresh` and `Save` (and `SaveWithOptions`) each fail with `NotFound` and leave
authoritative state untouched, so no other field is modified.  The spec's section 7
error catalogue names this failure `NotFound`; the `StaleHandle` wording of
section 4.2 is the same deleted-entity failure of Save. -/
theorem C2_deleted_handle_not_found (cosd sind : ℚ → ℚ) (r : CanvasRect)
    (opts : SaveOptions) (doc : List BaseField) (handle : BaseField)
    (hnone : getField doc handle.id = none) :
    Refresh doc handle = (handle, some .NotFound) ∧
    Save cosd sind r doc handle = (doc, some .NotFound) ∧
    SaveWithOptions cosd sind r opts doc handle = (doc, some .NotFound) := by
  refine ⟨?_, ?_, ?_⟩ <;> simp [Refresh, Save, SaveWithOptions, hnone]

/-- C2 witness: the handle `demoGhost` (id "zz") references no field of `demoDoc`;
Refresh and Save fail with NotFound leaving the document unchanged. -/
theorem C2_deleted_handle_not_found_witness :
    getField demoDoc demoGhost.id = none ∧
    Refresh demoDoc demoGhost = (demoGhost, some .NotFound) ∧
    Save (fun _ => 1) (fun _ => 0) demoRect demoDoc demoGhost =
      (demoDoc, some .NotFound) := by
  refine ⟨by decide, ?_, ?_⟩
  · exact (C2_deleted_handle_not_found (fun _ => 1) (fun _ => 0) demoRect
      { addUndo := true, handleTextFlow := true } demoDoc demoGhost (by decide)).1
  · exact (C2_deleted_handle_not_found (fun _ => 1) (fun _ => 0) demoRect
      { addUndo := true, handleTextFlow := true } demoDoc demoGhost (by decide)).2.1

/-- Concrete handle for witnesses carrying a tag with the delimiter character. -/
def demoBadTagHandle : BaseField :=
  { demoField "a" 0 with
    info := { name := "", tags := ["x|y"], sequence := 0, customData := "" } }

/-- C8: for every Save or SaveWithOptions call whose handle contains a tag string
with the delimiter character, the call is rejected with `InvalidArgument` before any
mutation: authoritative state, and in particular the field's tag list, is exactly as
before the call. -/
theorem C8_tag_delimiter_rejected (cosd sind : ℚ → ℚ) (r : CanvasRect)
    (opts : SaveOptions) (doc : List BaseField) (handle auth : BaseField)
    (hfind : getField doc handle.id = some auth)
    (hbad : ∃ t ∈ handle.info.tags, t.toList.contains '|' = true) :
    Save cosd sind r doc handle = (doc, some .InvalidArgument) ∧
    SaveWithOptions cosd sind r opts doc handle = (doc, some .InvalidArgument) ∧
    getField (Save cosd sind r doc handle).1 handle.id = some auth ∧
    (getField (Save cosd sind r doc handle).1 handle.id).map
      (fun f => f.info.tags) = some auth.info.tags := by
  have hvt : validTags handle = false := by
    obtain ⟨t, htmem, htc⟩ := hbad
    unfold validTags
    rw [List.all_eq_false]
    exact ⟨t, htmem, by simpa using htc⟩
  have h1 : Save cosd sind r doc handle = (doc, some .InvalidArgument) := by
    unfold Save
    rw [hfind]
    simp [hvt]
  refine ⟨h1, h1, ?_, ?_⟩ <;> rw [h1] <;> simp [hfind]

/-- C8 witness: saving `demoBadTagHandle` (tag "x|y") into `demoDoc` is rejected with
InvalidArgument and the document is unchanged. -/
theorem C8_tag_delimiter_rejected_witness :
    getField demoDoc demoBadTagHandle.id = some (demoField "a" 0) ∧
    ("x|y" ∈ demoBadTagHandle.info.tags ∧ "x|y".toList.contains '|' = true) ∧
    Save (fun _ => 1) (fun _ => 0) demoRect demoDoc demoBadTagHandle =
      (demoDoc, some .InvalidArgument) := by
  refine ⟨by decide, ⟨by decide, by decide⟩, ?_⟩
  exact (C8_tag_delimiter_rejected (fun _ => 1) (fun _ => 0) demoRect
    { addUndo := true, handleTextFlow := true } demoDoc demoBadTagHandle
    (demoField "a" 0) (by decide) ⟨"x|y", by decide, by decide⟩).1

/-- Concrete handle for witnesses whose saved area sticks out of `demoRect` on the
left (x = -5). -/
def demoOutHandle : BaseField :=
  { demoField "a" 0 with
    area := { x := -5, y := 0, w := 10, h := 10, rotation := 0
              page := 5, subPage := 1, zIndex := 9, hidden := false } }

/-- C9: after a successful Save the stored field's `issues.hasPositionIssues` is true
exactly when some corner of the rotated bounding box of the saved area lies outside
the canvas addressable area; in particular an area update moving the box partly
outside makes it true and a later update moving it fully back inside makes it false
again (apply the theorem to each successive Save).  Direct editor mutations are
performed by the host outside this repository and follow the same recomputation per
spec.md section 4.4. -/
theorem C9_position_issues_recompute (cosd sind : ℚ → ℚ) (r : CanvasRect)
    (doc : List BaseField) (handle auth : BaseField)
    (hfind : getField doc handle.id = some auth)
    (ht : validTags handle = true) (hsty : validStyle handle = true) :
    ∃ fld', getField (Save cosd sind r doc handle).1 handle.id = some fld' ∧
      fld'.area = savedArea auth handle ∧
      (fld'.issues.hasPositionIssues = true ↔
        ¬(InBounds r (GetBoundingBox cosd sind (savedArea auth handle)).topLeft ∧
          InBounds r (GetBoundingBox cosd sind (savedArea auth handle)).topRight ∧
          InBounds r (GetBoundingBox cosd sind (savedArea auth handle)).bottomRight ∧
          InBounds r (GetBoundingBox cosd sind (savedArea auth handle)).bottomLeft)) ∧
      (¬(InBounds r (GetBoundingBox cosd sind (savedArea auth handle)).topLeft ∧
          InBounds r (GetBoundingBox cosd sind (savedArea auth handle)).topRight ∧
          InBounds r (GetBoundingBox cosd sind (savedArea auth handle)).bottomRight ∧
          InBounds r (GetBoundingBox cosd sind (savedArea auth handle)).bottomLeft) →
        fld'.issues.hasPositionIssues = true) ∧
      ((InBounds r (GetBoundingBox cosd sind (savedArea auth handle)).topLeft ∧
          InBounds r (GetBoundingBox cosd sind (savedArea auth handle)).topRight ∧
          InBounds r (GetBoundingBox cosd sind (savedArea auth handle)).bottomRight ∧
          InBounds r (GetBoundingBox cosd sind (savedArea auth handle)).bottomLeft) →
        fld'.issues.hasPositionIssues = false) := by
  obtain ⟨hsave, hget⟩ := Save_found cosd sind r hfind ht hsty
  have hbIff : bboxInside cosd sind r (savedArea auth handle) = true ↔
      (InBounds r (GetBoundingBox cosd sind (savedArea auth handle)).topLeft ∧
        InBounds r (GetBoundingBox cosd sind (savedArea auth handle)).topRight ∧
        InBounds r (GetBoundingBox cosd sind (savedArea auth handle)).bottomRight ∧
        InBounds r (GetBoundingBox cosd sind (savedArea auth handle)).bottomLeft) := by
    simp [bboxInside, and_assoc]
  have hflag : (!(bboxInside cosd sind r (savedArea auth handle))) = true ↔
      ¬(InBounds r (GetBoundingBox cosd sind (savedArea auth handle)).topLeft ∧
        InBounds r (GetBoundingBox cosd sind (savedArea auth handle)).topRight ∧
        InBounds r (GetBoundingBox cosd sind (savedArea auth handle)).bottomRight ∧
        InBounds r (GetBoundingBox cosd sind (savedArea auth handle)).bottomLeft) := by
    rw [Bool.not_eq_true', Bool.eq_false_iff, ne_eq, hbIff]
  refine ⟨applySave cosd sind r auth handle, by rw [hsave]; exact hget, rfl, hflag,
    ?_, ?_⟩
  · intro hout
    exact hflag.mpr hout
  · intro hin
    show (!(bboxInside cosd sind r (savedArea auth handle))) = false
    rw [hbIff.mpr hin]
    rfl

/-- C9 witness: saving `demoOutHandle` (x = -5, so the top-left corner is left of the
addressable area) sets `hasPositionIssues`. -/
theorem C9_position_issues_recompute_witness :
    getField demoDoc demoOutHandle.id = some (demoField "a" 0) ∧
    validTags demoOutHandle = true ∧ validStyle demoOutHandle = true ∧
    ∃ fld',
      getField (Save (fun _ => 1) (fun _ => 0) demoRect demoDoc demoOutHandle).1
        demoOutHandle.id = some fld' ∧
      fld'.issues.hasPositionIssues = true := by
  refine ⟨by decide, by decide, by decide, ?_⟩
  obtain ⟨fld', hget, -, -, hout, -⟩ :=
    C9_position_issues_recompute (fun _ => 1) (fun _ => 0) demoRect demoDoc
      demoOutHandle (demoField "a" 0) (by decide) (by decide) (by decide)
  refine ⟨fld', hget, hout ?_⟩
  intro hin
  have htl := hin.1.1
  norm_num [savedArea, GetBoundingBox, rotatePoint, InBounds, demoRect,
    demoOutHandle, demoField] at htl

/-- C10: the `type` of a field is always one of exactly the four `FieldType`
variants, and no operation of the shared contract changes any field's type:
`ReArrange`, `Save` and `SaveWithOptions` preserve the id and type of every
authoritative field, and a successful `Refresh` returns a handle whose type equals
the authoritative type, so a handle's type never changes either. -/
theorem C10_field_type_constant :
    (∀ t : FieldType,
      t = .ImageField ∨ t = .TextField ∨ t = .PathField ∨ t = .CustomField) ∧
    (∀ (mode : ReArrangeMode) (doc : List BaseField) (fid : String),
      ((ReArrange mode doc fid).1).map (fun f => (f.id, f.type)) =
        doc.map (fun f => (f.id, f.type))) ∧
    (∀ (cosd sind : ℚ → ℚ) (r : CanvasRect) (doc : List BaseField)
      (handle : BaseField),
      ((Save cosd sind r doc handle).1).map (fun f => (f.id, f.type)) =
        doc.map (fun f => (f.id, f.type))) ∧
    (∀ (cosd sind : ℚ → ℚ) (r : CanvasRect) (opts : SaveOptions)
      (doc : List BaseField) (handle : BaseField),
      ((SaveWithOptions cosd sind r opts doc handle).1).map (fun f => (f.id, f.type)) =
        doc.map (fun f => (f.id, f.type))) ∧
    (∀ (doc : List BaseField) (handle auth : BaseField),
      getField doc handle.id = some auth → auth.type = handle.type →
      ((Refresh doc handle).1).type = handle.type) := by
  have hsavemap : ∀ (cosd sind : ℚ → ℚ) (r : CanvasRect) (doc : List BaseField)
      (handle : BaseField),
      ((Save cosd sind r doc handle).1).map (fun f => (f.id, f.type)) =
        doc.map (fun f => (f.id, f.type)) := by
    intro cosd sind r doc handle
    unfold Save
    cases hf : getField doc handle.id with
    | none => rfl
    | some auth =>
      by_cases hv : (!(validTags handle) || !(validStyle handle)) = true
      · rw [if_pos hv]
      · rw [if_neg hv]
        simp only [List.map_map]
        apply List.map_congr_left
        intro g _
        simp [Function.comp, saveUpd_id, saveUpd_type]
  refine ⟨?_, ?_, hsavemap, ?_, ?_⟩
  · intro t
    cases t
    · exact Or.inl rfl
    · exact Or.inr (Or.inl rfl)
    · exact Or.inr (Or.inr (Or.inl rfl))
    · exact Or.inr (Or.inr (Or.inr rfl))
  · intro mode doc fid
    unfold ReArrange
    cases hf : getField doc fid with
    | none => rfl
    | some f =>
      by_cases hz : f.restrictions.allowZOrderArrangement = true
      · simp only [hz, if_true]
        exact renumberPage_id_type _ _ _ doc
      · simp [hz]
  · intro cosd sind r opts doc handle
    exact hsavemap cosd sind r doc handle
  · intro doc handle auth hfind htype
    unfold Refresh
    rw [hfind]
    exact htype

/-- C10 witness: the hypotheses of the Refresh conjunct hold at `demoDoc` and the
handle `demoField "a" 0`, and the ReArrange conjunct evaluated on `demoDoc`. -/
theorem C10_field_type_constant_witness :
    ((ReArrange .MoveFront demoDoc "b").1).map (fun f => (f.id, f.type)) =
        demoDoc.map (fun f => (f.id, f.type)) ∧
      getField demoDoc (demoField "a" 0).id = some (demoField "a" 0) ∧
      ((Refresh demoDoc (demoField "a" 0)).1).type = (demoField "a" 0).type := by
  refine ⟨C10_field_type_constant.2.1 .MoveFront demoDoc "b", by decide, ?_⟩
  exact C10_field_type_constant.2.2.2.2 demoDoc (demoField "a" 0) (demoField "a" 0)
    (by decide) rfl

/-- Concrete restriction record for witnesses with z-order arrangement forbidden. -/
def demoLockedField : BaseField :=
  { demoField "a" 0 with
    restrictions := { demoRestrictions with allowZOrderArrangement := false } }

/-- Concrete single-field document whose field forbids z-order arrangement. -/
def demoDocLocked : List BaseField := [demoLockedField]

/-- C3: for every field whose `restrictions.allowZOrderArrangement` is false,
`ReArrange` with any mode fails with `RestrictionViolation` and is a no-op: the
document, hence the (page, subPage) z-order stack and every field's zIndex, is
exactly as before the call. -/
theorem C3_rearrange_restriction_violation (mode : ReArrangeMode)
    (doc : List BaseField) (fid : String) (f : BaseField)
    (hfind : getField doc fid = some f)
    (hallow : f.restrictions.allowZOrderArrangement = false) :
    ReArrange mode doc fid = (doc, some .RestrictionViolation) ∧
    stackOf (ReArrange mode doc fid).1 f.area.page f.area.subPage =
      stackOf doc f.area.page f.area.subPage ∧
    ((ReArrange mode doc fid).1).map (fun g => g.area.zIndex) =
      doc.map (fun g => g.area.zIndex) := by
  have h1 : ReArrange mode doc fid = (doc, some .RestrictionViolation) := by
    unfold ReArrange
    rw [hfind]
    simp [hallow]
  exact ⟨h1, by rw [h1], by rw [h1]⟩

/-- C3 witness: the locked document and every one of the four modes in turn would
work; `MoveFront` is exercised here. -/
theorem C3_rearrange_restriction_violation_witness :
    getField demoDocLocked "a" = some demoLockedField ∧
    demoLockedField.restrictions.allowZOrderArrangement = false ∧
    ReArrange .MoveFront demoDocLocked "a" =
      (demoDocLocked, some .RestrictionViolation) := by
  refine ⟨by decide, by decide, ?_⟩
  exact (C3_rearrange_restriction_violation .MoveFront demoDocLocked "a"
    demoLockedField (by decide) (by decide)).1

/-- C4: on every (page, subPage) stack, `MoveFront` on a field that is not top-most
swaps it with its immediate next-higher neighbour and `MoveBack` on a field that is
not bottom-most swaps it with its immediate next-lower neighbour; every `zReArrange`
operation preserves the stack's length and its set of field ids (it produces a
permutation); and on the concrete document with zIndex values [0, 1, 2], `MoveFront`
on the field at index 1 puts it at index 2 and the previous index-2 field at
index 1. -/
theorem C4_move_front_back_swap (l₁ l₂ : List String) (a b : String)
    (ha : a ∉ l₁) (hb : b ∉ l₁) (hba : b ≠ a) :
    zReArrange .MoveFront a (l₁ ++ a :: b :: l₂) = l₁ ++ b :: a :: l₂ ∧
    zReArrange .MoveBack b (l₁ ++ a :: b :: l₂) = l₁ ++ b :: a :: l₂ ∧
    (∀ (mode : ReArrangeMode) (fid : String) (s : List String),
      (zReArrange mode fid s).Perm s ∧
      (zReArrange mode fid s).length = s.length ∧
      (∀ x, x ∈ zReArrange mode fid s ↔ x ∈ s)) ∧
    ReArrange .MoveFront demoDoc "b" =
      ([demoField "a" 0,
        { demoField "b" 1 with area := { (demoField "b" 1).area with zIndex := 2 } },
        { demoField "c" 2 with area := { (demoField "c" 2).area with zIndex := 1 } }],
        none) := by
  refine ⟨moveFrontStep_swap a b l₁ ha l₂, moveBackStep_swap a b hba l₁ hb l₂, ?_,
    by decide⟩
  intro mode fid s
  have hp := zReArrange_perm mode fid s
  exact ⟨hp, hp.length_eq, fun x => hp.mem_iff⟩

/-- C4 witness: the swap conjunct at the concrete stack ["p", "a", "b", "q"]. -/
theorem C4_move_front_back_swap_witness :
    ("a" ∉ (["p"] : List String)) ∧ ("b" ∉ (["p"] : List String)) ∧
    zReArrange .MoveFront "a" (["p"] ++ "a" :: "b" :: ["q"]) =
      ["p"] ++ "b" :: "a" :: ["q"] ∧
    zReArrange .MoveBack "b" (["p"] ++ "a" :: "b" :: ["q"]) =
      ["p"] ++ "b" :: "a" :: ["q"] := by
  refine ⟨by decide, by decide, ?_, ?_⟩
  · exact (C4_move_front_back_swap ["p"] ["q"] "a" "b" (by decide) (by decide)
      (by decide)).1
  · exact (C4_move_front_back_swap ["p"] ["q"] "a" "b" (by decide) (by decide)
      (by decide)).2.1

/-- C5: `MoveToFront` followed by `MoveToBack` on the same field leaves it at
index 0 of its stack (hence zIndex 0 after renumbering); all four modes are no-ops,
not errors, at the relevant boundary, so on a stack of size 1 every mode is a no-op;
and after a permitted `ReArrange` with `MoveToFront` or `MoveToBack` on a well-formed
document (stack a permutation of the page's ids, ids on the page distinct) the
page's zIndex values are renumbered to exactly the contiguous range 0..n-1. -/
theorem C5_rearrange_boundaries :
    (∀ (s : List String) (fid : String), fid ∈ s →
      (zReArrange .MoveToBack fid (zReArrange .MoveToFront fid s)).indexOf fid = 0) ∧
    (∀ (mode : ReArrangeMode) (fid x : String), zReArrange mode fid [x] = [x]) ∧
    (∀ (l : List String) (a : String), a ∉ l →
      zReArrange .MoveFront a (l ++ [a]) = l ++ [a] ∧
      zReArrange .MoveToFront a (l ++ [a]) = l ++ [a]) ∧
    (∀ (t : List String) (a : String), a ∉ t →
      zReArrange .MoveBack a (a :: t) = a :: t ∧
      zReArrange .MoveToBack a (a :: t) = a :: t) ∧
    (∀ (mode : ReArrangeMode) (doc : List BaseField) (fid : String) (f : BaseField),
      mode = .MoveToFront ∨ mode = .MoveToBack →
      getField doc fid = some f →
      f.restrictions.allowZOrderArrangement = true →
      (stackOf doc f.area.page f.area.subPage).Perm
        ((pageFields doc f.area.page f.area.subPage).map (fun g => g.id)) →
      ((pageFields doc f.area.page f.area.subPage).map (fun g => g.id)).Nodup →
      ((pageFields (ReArrange mode doc fid).1 f.area.page f.area.subPage).map
          (fun g => g.area.zIndex)).Perm
        (List.range (pageFields doc f.area.page f.area.subPage).length)) := by
  refine ⟨?_, ?_, ?_, ?_, ?_⟩
  · intro s fid hmem
    have h1 : zReArrange .MoveToFront fid s = s.erase fid ++ [fid] := by
      simp only [zReArrange, hmem, if_true]
    rw [h1]
    have hmem1 : fid ∈ s.erase fid ++ [fid] :=
      List.mem_append_right _ (List.mem_singleton.mpr rfl)
    have h2 : zReArrange .MoveToBack fid (s.erase fid ++ [fid]) =
        fid :: (s.erase fid ++ [fid]).erase fid := by
      simp only [zReArrange, hmem1, if_true]
    rw [h2]
    exact List.indexOf_cons_self fid _
  · intro mode fid x
    cases mode with
    | MoveFront =>
      show moveFrontStep fid [x] = [x]
      by_cases hx : x = fid <;> simp [moveFrontStep, hx]
    | MoveBack => rfl
    | MoveToFront =>
      by_cases hx : fid = x
      · subst hx
        simp [zReArrange, List.erase_cons_head]
      · simp [zReArrange, List.mem_singleton, hx]
    | MoveToBack =>
      by_cases hx : fid = x
      · subst hx
        simp [zReArrange, List.erase_cons_head]
      · simp [zReArrange, List.mem_singleton, hx]
  · intro l a ha
    constructor
    · exact moveFrontStep_top a l ha
    · have hmem : a ∈ l ++ [a] := List.mem_append_right l (List.mem_singleton.mpr rfl)
      simp only [zReArrange, hmem, if_true]
      rw [List.erase_append_right _ ha, List.erase_cons_head]
      simp
  · intro t a ha
    constructor
    · exact moveBackStep_bottom a t ha
    · have hmem : a ∈ a :: t := List.mem_cons_self a t
      simp only [zReArrange, hmem, if_true]
      rw [List.erase_cons_head]
  · intro mode doc fid f _ hfind hallow hperm hnodup
    have h1 : (ReArrange mode doc fid).1 =
        renumberPage f.area.page f.area.subPage
          (zReArrange mode fid (stackOf doc f.area.page f.area.subPage)) doc := by
      unfold ReArrange
      rw [hfind]
      simp [hallow]
    rw [h1]
    have hperm' : (zReArrange mode fid (stackOf doc f.area.page f.area.subPage)).Perm
        ((pageFields doc f.area.page f.area.subPage).map (fun g => g.id)) :=
      (zReArrange_perm mode fid _).trans hperm
    exact renumber_zIndex_perm f.area.page f.area.subPage _ doc hperm'
      (hperm'.nodup_iff.mpr hnodup)

/-- C5 witness: the front-then-back round trip at the concrete stack
["a", "b", "c"], the size-1 no-op, and the contiguity conjunct evaluated on the
concrete document `demoDoc` with `MoveToBack` on field "b". -/
theorem C5_rearrange_boundaries_witness :
    ("b" ∈ (["a", "b", "c"] : List String)) ∧
    (zReArrange .MoveToBack "b"
      (zReArrange .MoveToFront "b" ["a", "b", "c"])).indexOf "b" = 0 ∧
    zReArrange .MoveFront "a" ["a"] = ["a"] ∧
    getField demoDoc "b" = some (demoField "b" 1) ∧
    (demoField "b" 1).restrictions.allowZOrderArrangement = true ∧
    (stackOf demoDoc 0 0).Perm ((pageFields demoDoc 0 0).map (fun g => g.id)) ∧
    ((pageFields demoDoc 0 0).map (fun g => g.id)).Nodup ∧
    ((pageFields (ReArrange .MoveToBack demoDoc "b").1 0 0).map
        (fun g => g.area.zIndex)).Perm
      (List.range (pageFields demoDoc 0 0).length) := by
  refine ⟨by decide, ?_, ?_, by decide, by decide, by decide, by decide, ?_⟩
  · exact C5_rearrange_boundaries.1 ["a", "b", "c"] "b" (by decide)
  · exact C5_rearrange_boundaries.2.1 .MoveFront "a" "a"
  · exact C5_rearrange_boundaries.2.2.2.2 .MoveToBack demoDoc "b" (demoField "b" 1)
      (Or.inr rfl) (by decide) (by decide) (by decide) (by decide)

end MegaEdit
